import Mathlib

/-!
Verification of the SublimeLinter3 navigation / quick-list layer
(`commands.py`): the `goto_error` directional search with wrap-around,
the mark containment lookup (`find_mark_within` / `select_lint_region`),
and the quick-panel row builder (`SublimelinterShowAllErrors.run`).

Regions are modelled as pairs of document offsets exactly as
`sublime.Region`: `begin()` / `end()` are the min / max of the two
endpoints, `empty()` is endpoint equality, and `contains` is inclusive
interval membership (for a point) resp. interval inclusion (for a
region).  Selections and region sets are lists of regions; `sublime.
Selection` iterates its regions in ascending position order, which we
model by sorting on `(begin, end)` lexicographically.  Python strings
are lists of characters; Python slicing with a possibly negative index
is modelled by `pyIdx`.  An out-of-bounds indexing (`regions[0]` on an
empty set raising `IndexError`) is modelled by returning `none`.
-/

namespace SublimeLinter

/-- A `sublime.Region`: two document offsets, possibly reversed. -/
structure Region where
  a : Nat
  b : Nat
deriving DecidableEq, Repr, Inhabited

/-- `Region.begin()`: the lower endpoint. -/
def Region.rbegin (r : Region) : Nat := min r.a r.b

/-- `Region.end()`: the upper endpoint. -/
def Region.rend (r : Region) : Nat := max r.a r.b

/-- `Region.empty()`: true when both endpoints coincide. -/
def Region.empty (r : Region) : Bool := r.a == r.b

/-- `Region.contains(point)`: inclusive membership `begin() <= p <= end()`. -/
def Region.containsPt (r : Region) (p : Nat) : Bool :=
  decide (r.rbegin ≤ p ∧ p ≤ r.rend)

/-- `Region.contains(region)`: interval inclusion of `m` in `r`. -/
def Region.containsReg (r : Region) (m : Region) : Bool :=
  decide (r.rbegin ≤ m.rbegin ∧ m.rend ≤ r.rend)

/-- Iteration order of a `sublime.Selection`: ascending `(begin, end)`. -/
def regionLe (x y : Region) : Prop :=
  x.rbegin < y.rbegin ∨ (x.rbegin = y.rbegin ∧ x.rend ≤ y.rend)

instance : DecidableRel regionLe := fun x y =>
  inferInstanceAs (Decidable (x.rbegin < y.rbegin ∨ (x.rbegin = y.rbegin ∧ x.rend ≤ y.rend)))

instance : IsTotal Region regionLe :=
  ⟨by intro x y; unfold regionLe; omega⟩

instance : IsTrans Region regionLe :=
  ⟨by intro x y z hxy hyz; unfold regionLe at *; omega⟩

/-- `marks.sort(key=lambda x: x.begin())`: comparison on `begin()` only. -/
def markLe (x y : Region) : Prop := x.rbegin ≤ y.rbegin

instance : DecidableRel markLe := fun x y =>
  inferInstanceAs (Decidable (x.rbegin ≤ y.rbegin))

instance : IsTotal Region markLe := ⟨by intro x y; unfold markLe; omega⟩

instance : IsTrans Region markLe := ⟨by intro x y z hxy hyz; unfold markLe at *; omega⟩

/-- The broad regions as iterated by the `sublime.Selection` container
(`regions` in `goto_error`): sorted ascending.  Insertion sort is stable,
like the container's positional order. -/
def sortRegions (rs : List Region) : List Region := rs.insertionSort regionLe

/-- The mark list after `marks.sort(key=lambda x: x.begin())` (stable). -/
def sortMarks (ms : List Region) : List Region := ms.insertionSort markLe

/-- The two directions accepted by `goto_error`. -/
inductive Direction where
  | next
  | prev
deriving DecidableEq, Repr

/-- `find_mark_within`: first mark (ascending `begin()`, stable) fully
contained in `region`; `None` when there is none. -/
def find_mark_within (marks : List Region) (region : Region) : Option Region :=
  (sortMarks marks).find? (fun m => region.containsReg m)

/-- `select_lint_region`: the selection it installs — the first contained
mark, else a zero-length region at `region.begin()`.  The previous
selection is cleared first, so the result is the whole new selection. -/
def select_lint_region (marks : List Region) (region : Region) : List Region :=
  match find_mark_within marks region with
  | some m => [m]
  | none => [Region.mk region.rbegin region.rbegin]

/-- `if len(sel) == 0: sel.add(sublime.Region(0, 0))` at the top of
`goto_error`. -/
def fixSel (sel0 : List Region) : List Region :=
  if sel0.isEmpty then [Region.mk 0 0] else sel0

/-- `empty_selection = len(sel) == 1 and sel[0].empty()`. -/
def empty_selection (sel : List Region) : Bool :=
  sel.length == 1 && (sel.headD (Region.mk 0 0)).empty

/-- `point = sel[0].begin() if direction == 'next' else sel[-1].end()`
when no explicit point is passed. -/
def anchorPoint (sel : List Region) (point? : Option Nat) (direction : Direction) : Nat :=
  match point? with
  | some p => p
  | none =>
    match direction with
    | .next => (sel.headD (Region.mk 0 0)).rbegin
    | .prev => (sel.getLastD (Region.mk 0 0)).rend

/-- The forward-scan condition of `goto_error`. -/
def nextPred (point : Nat) (emptySel : Bool) (r : Region) : Bool :=
  (point == r.rbegin && emptySel && !r.empty) || decide (point < r.rbegin)

/-- The backward-scan condition of `goto_error`. -/
def prevPred (point : Nat) (emptySel : Bool) (r : Region) : Bool :=
  (point == r.rend && emptySel && !r.empty) || decide (point > r.rend)

/-- The scan condition for a given direction. -/
def dirPred : Direction → Nat → Bool → Region → Bool
  | .next => nextPred
  | .prev => prevPred

/-- `for region in regions` vs `for region in reversed(regions)`. -/
def scanOrder : Direction → List Region → List Region
  | .next, rs => rs
  | .prev, rs => rs.reverse

/-- `regions[0] if direction == 'next' else regions[-1]` (wrap target). -/
def wrapRegion : Direction → List Region → Region
  | .next, rs => rs.headD (Region.mk 0 0)
  | .prev, rs => rs.getLastD (Region.mk 0 0)

/-- Result of `goto_error`: the selection left in the view and the
returned `region_to_select` (`none` means the "No … lint error" dialog). -/
structure GotoResult where
  sel : List Region
  region_to_select : Option Region
deriving DecidableEq, Repr

/-- `GotoErrorCommand.goto_error`.  `warnRegions` / `errRegions` are the
broad warning and error region families fetched from the view, `marks`
the concatenated mark families used by `select_lint_region`.  The outer
`Option` is `none` exactly when the Python code raises `IndexError` at
`regions[0]` (scan failed and the region set is empty). -/
def goto_error (sel0 warnRegions errRegions marks : List Region)
    (wrap_find : Bool) (point? : Option Nat) (direction : Direction) :
    Option GotoResult :=
  let sel1 := fixSel sel0
  let emptySel := empty_selection sel1
  let point := anchorPoint sel1 point? direction
  let regions := sortRegions (warnRegions ++ errRegions)
  match (scanOrder direction regions).find? (dirPred direction point emptySel) with
  | some r => some ⟨select_lint_region marks r, some r⟩
  | none =>
    match regions with
    | [] => none
    | r0 :: _ =>
      if 1 < regions.length ∨ r0.containsPt point = false then
        if wrap_find then
          let r := wrapRegion direction regions
          some ⟨select_lint_region marks r, some r⟩
        else some ⟨sel1, none⟩
      else some ⟨sel1, none⟩

/-- The `error_command` decorator's gate: the view's error map is
present and non-empty. -/
def error_command_guard (errors : List (Nat × List (Nat × String))) : Bool :=
  !errors.isEmpty

/-! ### Quick-list builder (`SublimelinterShowAllErrors.run`) -/

/-- `sorted(errors.items())`: ascending line number (dict keys are
distinct, so only the keys are compared). -/
def lineLe (x y : Nat × List (Nat × String)) : Prop := x.1 ≤ y.1

instance : DecidableRel lineLe := fun x y =>
  inferInstanceAs (Decidable (x.1 ≤ y.1))

instance : IsTotal (Nat × List (Nat × String)) lineLe :=
  ⟨by intro x y; unfold lineLe; omega⟩

instance : IsTrans (Nat × List (Nat × String)) lineLe :=
  ⟨by intro x y z hxy hyz; unfold lineLe at *; omega⟩

/-- `sorted(messages)`: Python tuple order on `(column, message)`. -/
def msgLe (x y : Nat × String) : Prop :=
  x.1 < y.1 ∨ (x.1 = y.1 ∧ x.2 ≤ y.2)

instance : DecidableRel msgLe := fun x y =>
  inferInstanceAs (Decidable (x.1 < y.1 ∨ (x.1 = y.1 ∧ x.2 ≤ y.2)))

instance : IsTotal (Nat × String) msgLe := by
  constructor
  intro x y
  rcases Nat.lt_trichotomy x.1 y.1 with h | h | h
  · exact Or.inl (Or.inl h)
  · rcases le_total x.2 y.2 with h2 | h2
    · exact Or.inl (Or.inr ⟨h, h2⟩)
    · exact Or.inr (Or.inr ⟨h.symm, h2⟩)
  · exact Or.inr (Or.inl h)

instance : IsTrans (Nat × String) msgLe := by
  constructor
  intro x y z hxy hyz
  rcases hxy with h1 | ⟨h1, h1'⟩
  · rcases hyz with h2 | ⟨h2, _⟩
    · exact Or.inl (h1.trans h2)
    · exact Or.inl (h2 ▸ h1)
  · rcases hyz with h2 | ⟨h2, h2'⟩
    · exact Or.inl (h1 ▸ h2)
    · exact Or.inr ⟨h1.trans h2, h1'.trans h2'⟩

/-- `line.rstrip('\n\r')`: drop trailing newline / carriage-return. -/
def rstrip_newlines (s : List Char) : List Char :=
  (s.reverse.dropWhile (fun c => c == '\n' || c == '\r')).reverse

/-- `line.lstrip()`: drop leading whitespace. -/
def lstrip (s : List Char) : List Char :=
  s.dropWhile (fun c => c.isWhitespace)

/-- `max_prefix_len = 40`. -/
def max_prefix_len : Nat := 40

/-- The marker glyph inserted at the diagnostic's column. -/
def markerChar : Char := '➜'

/-- The characters of the `'...'` ellipsis. -/
def ellipsisChars : List Char := ['.', '.', '.']

/-- Effective index of the Python slices `s[:c]` / `s[c:]` for an `int`
index `c`: non-negative indices clamp at the length, negative indices
count from the end and clamp at `0`. -/
def pyIdx (c : Int) (n : Nat) : Nat :=
  if 0 ≤ c then min c.toNat n else ((n : Int) + c).toNat

/-- Python `s[:c]`. -/
def pyTake (s : List Char) (c : Int) : List Char := s.take (pyIdx c s.length)

/-- Python `s[c:]`. -/
def pyDrop (s : List Char) (c : Int) : List Char := s.drop (pyIdx c s.length)

/-- The per-diagnostic formatting block of `SublimelinterShowAllErrors.
run`: `line` is the stripped line, `column0` the reported column,
`diff` the number of leading characters stripped.  Produces `code`,
the preview with the marker glyph spliced in. -/
def format_code (line : List Char) (column0 diff : Nat) : List Char :=
  let column : Int := (column0 : Int) - (diff : Int)
  if column > (max_prefix_len : Int) then
    let visible_line := ellipsisChars ++ line.drop (column - (max_prefix_len : Int)).toNat
    let column2 : Int := (max_prefix_len : Int) + 3
    pyTake visible_line column2 ++ markerChar :: pyDrop visible_line column2
  else
    pyTake line column ++ markerChar :: pyDrop line column

/-- `'{}  {}'.format(lineno + 1, message[1])`. -/
def mkLabel (lineno : Nat) (msg : String) : String :=
  toString (lineno + 1) ++ "  " ++ msg

/-- One produced quick-panel row: the `error_info` entry `(line,
column)`, the diagnostic's message, and the `options` entry `(label,
code)`. -/
structure QuickRow where
  line : Nat
  column : Nat
  message : String
  label : String
  code : List Char
deriving DecidableEq, Repr

/-- The row-building loop of `SublimelinterShowAllErrors.run`.  `errors`
is the view's error map as a list of `(line, diagnostics)` pairs (a
Python dict, so line keys are distinct); `lineText` yields the full
text of a line including its trailing newline. -/
def show_all_errors (errors : List (Nat × List (Nat × String)))
    (lineText : Nat → List Char) : List QuickRow :=
  ((errors.insertionSort lineLe).map (fun entry =>
    let lineno := entry.1
    let line0 := rstrip_newlines (lineText lineno)
    let line := lstrip line0
    let diff := line0.length - line.length
    (entry.2.insertionSort msgLe).map (fun m =>
      { line := lineno
        column := m.1
        message := m.2
        label := mkLabel lineno m.2
        code := format_code line m.1 diff }))).flatten

/-- The sort key `(line, column, message)` of a row. -/
def rowKey (q : QuickRow) : Nat × Nat × String := (q.line, q.column, q.message)

/-- Lexicographic order on row keys. -/
def keyLe (x y : Nat × Nat × String) : Prop :=
  x.1 < y.1 ∨ (x.1 = y.1 ∧ (x.2.1 < y.2.1 ∨ (x.2.1 = y.2.1 ∧ x.2.2 ≤ y.2.2)))

/-- Splicing the marker glyph into `s` at position `n`. -/
def spliceAt (n : Nat) (s : List Char) : List Char :=
  s.take n ++ markerChar :: s.drop n

/-! ### Helper lemmas -/

theorem find?_pairwise_min {α : Type} {R : α → α → Prop} {p : α → Bool} :
    ∀ {l : List α}, l.Pairwise R → ∀ {a : α}, l.find? p = some a →
      ∀ b ∈ l, p b = true → a = b ∨ R a b := by
  intro l
  induction l with
  | nil => intro _ a h; simp at h
  | cons x xs ih =>
    intro hp a hfind b hb hpb
    rcases List.pairwise_cons.mp hp with ⟨hx, hxs⟩
    cases hpx : p x with
    | true =>
      simp [List.find?_cons, hpx] at hfind
      rcases List.mem_cons.mp hb with hbx | hbxs
      · exact Or.inl (hfind ▸ hbx.symm ▸ rfl)
      · exact Or.inr (hfind ▸ hx b hbxs)
    | false =>
      simp [List.find?_cons, hpx] at hfind
      rcases List.mem_cons.mp hb with hbx | hbxs
      · rw [hbx] at hpb; rw [hpb] at hpx; cases hpx
      · exact ih hxs hfind b hbxs hpb

theorem sortRegions_perm (rs : List Region) : (sortRegions rs).Perm rs :=
  List.perm_insertionSort regionLe rs

theorem sortRegions_pairwise (rs : List Region) : (sortRegions rs).Pairwise regionLe :=
  List.sorted_insertionSort regionLe rs

theorem sortMarks_perm (ms : List Region) : (sortMarks ms).Perm ms :=
  List.perm_insertionSort markLe ms

theorem sortMarks_pairwise (ms : List Region) : (sortMarks ms).Pairwise markLe :=
  List.sorted_insertionSort markLe ms

theorem pyTake_nonneg (s : List Char) (c : Int) (h : 0 ≤ c) :
    pyTake s c = s.take c.toNat := by
  unfold pyTake pyIdx
  rw [if_pos h]
  rcases le_total c.toNat s.length with h2 | h2
  · rw [min_eq_left h2]
  · rw [min_eq_right h2, List.take_length, List.take_of_length_le h2]

theorem pyDrop_nonneg (s : List Char) (c : Int) (h : 0 ≤ c) :
    pyDrop s c = s.drop c.toNat := by
  unfold pyDrop pyIdx
  rw [if_pos h]
  rcases le_total c.toNat s.length with h2 | h2
  · rw [min_eq_left h2]
  · rw [min_eq_right h2, List.drop_length, List.drop_eq_nil_of_le h2]

theorem pyTake_neg (s : List Char) (c : Int) (h : c < 0) :
    pyTake s c = s.take ((s.length : Int) + c).toNat := by
  unfold pyTake pyIdx
  rw [if_neg (not_le.mpr h)]

theorem pyDrop_neg (s : List Char) (c : Int) (h : c < 0) :
    pyDrop s c = s.drop ((s.length : Int) + c).toNat := by
  unfold pyDrop pyIdx
  rw [if_neg (not_le.mpr h)]

theorem regionLe_rbegin {x y : Region} (h : regionLe x y) : x.rbegin ≤ y.rbegin := by
  unfold regionLe at h; omega

theorem sortRegions_ne_nil {w e : List Region} (hne : w ++ e ≠ []) :
    sortRegions (w ++ e) ≠ [] := by
  intro hc
  have hp := sortRegions_perm (w ++ e)
  rw [hc] at hp
  exact hne hp.symm.eq_nil

theorem goto_error_isSome (sel0 w e marks : List Region) (wrap : Bool)
    (point? : Option Nat) (dir : Direction) (hne : w ++ e ≠ []) :
    (goto_error sel0 w e marks wrap point? dir).isSome = true := by
  simp only [goto_error]
  split
  · rfl
  · split
    · rename_i hnil
      exact absurd hnil (sortRegions_ne_nil hne)
    · split_ifs <;> rfl

theorem fixSel_of_ne_nil {sel0 : List Region} (h : sel0 ≠ []) : fixSel sel0 = sel0 := by
  cases sel0 with
  | nil => exact absurd rfl h
  | cons a l => simp [fixSel]

theorem fixSel_of_emptySel_false {sel0 : List Region}
    (h : empty_selection (fixSel sel0) = false) : fixSel sel0 = sel0 := by
  cases sel0 with
  | nil => simp [fixSel, empty_selection, Region.empty] at h
  | cons a l => simp [fixSel]

theorem goto_none_sel (sel0 w e marks : List Region) (wrap : Bool)
    (point? : Option Nat) (dir : Direction) (res : GotoResult)
    (h : goto_error sel0 w e marks wrap point? dir = some res)
    (hn : res.region_to_select = none) : res.sel = fixSel sel0 := by
  simp only [goto_error] at h
  split at h
  · injection h with h2
    rw [← h2] at hn
    simp at hn
  · split at h
    · cases h
    · split_ifs at h with h1 h2
      · injection h with h2
        rw [← h2] at hn
        simp at hn
      · injection h with h2
        rw [← h2]
      · injection h with h2
        rw [← h2]

theorem scan_none_of_all_false (sel0 w e : List Region) (point? : Option Nat)
    (dir : Direction)
    (hnone : ∀ r ∈ w ++ e, dirPred dir (anchorPoint (fixSel sel0) point? dir)
      (empty_selection (fixSel sel0)) r = false) :
    (scanOrder dir (sortRegions (w ++ e))).find?
      (dirPred dir (anchorPoint (fixSel sel0) point? dir)
        (empty_selection (fixSel sel0))) = none := by
  apply List.find?_eq_none.mpr
  intro x hx
  have hx2 : x ∈ sortRegions (w ++ e) := by
    cases dir with
    | next => simpa [scanOrder] using hx
    | prev => exact List.mem_reverse.mp (by simpa [scanOrder] using hx)
  have hx3 : x ∈ w ++ e := (sortRegions_perm _).mem_iff.mp hx2
  simp [hnone x hx3]

/-! ### Claim theorems -/

/-- C4: `select_lint_region` replaces the whole selection with exactly one
range: the first mark (ascending `begin`, first match winning) fully
contained in the chosen region — extensionally, a contained mark of
minimal `begin` — and when no mark is contained, the zero-length range at
the region's `begin`. -/
theorem select_lint_region_spec (marks : List Region) (region : Region) :
    (select_lint_region marks region).length = 1 ∧
    (∀ m, find_mark_within marks region = some m →
      select_lint_region marks region = [m] ∧ m ∈ marks ∧
      region.containsReg m = true ∧
      ∀ m' ∈ marks, region.containsReg m' = true → m.rbegin ≤ m'.rbegin) ∧
    (find_mark_within marks region = none →
      (∀ m' ∈ marks, region.containsReg m' = false) ∧
      select_lint_region marks region = [Region.mk region.rbegin region.rbegin]) := by
  refine ⟨?_, ?_, ?_⟩
  · cases h : find_mark_within marks region <;> simp [select_lint_region, h]
  · intro m hm
    have hm' := hm
    unfold find_mark_within at hm'
    refine ⟨by simp [select_lint_region, hm], ?_, ?_, ?_⟩
    · exact (sortMarks_perm marks).mem_iff.mp (List.mem_of_find?_eq_some hm')
    · simpa using List.find?_some hm'
    · intro m' hmem hc
      have hmem' : m' ∈ sortMarks marks := (sortMarks_perm marks).mem_iff.mpr hmem
      rcases find?_pairwise_min (sortMarks_pairwise marks) hm' m' hmem' (by simpa using hc)
        with heq | hle
      · rw [heq]
      · exact hle
  · intro h
    have h' := h
    unfold find_mark_within at h'
    refine ⟨?_, by simp [select_lint_region, h]⟩
    intro m' hmem
    have hmem' : m' ∈ sortMarks marks := (sortMarks_perm marks).mem_iff.mpr hmem
    simpa using List.find?_eq_none.mp h' m' hmem'

theorem select_lint_region_spec_witness :
    select_lint_region [Region.mk 3 8, Region.mk 0 5] (Region.mk 0 10) = [Region.mk 0 5] ∧
    Region.mk 0 5 ∈ [Region.mk 3 8, Region.mk 0 5] ∧
    (Region.mk 0 10).containsReg (Region.mk 0 5) = true ∧
    ∀ m' ∈ [Region.mk 3 8, Region.mk 0 5],
      (Region.mk 0 10).containsReg m' = true → (Region.mk 0 5).rbegin ≤ m'.rbegin :=
  (select_lint_region_spec [Region.mk 3 8, Region.mk 0 5] (Region.mk 0 10)).2.1
    (Region.mk 0 5) (by decide)

/-- C5: with `adjustedColumn = column - diff`, a diagnostic past the
40-character visible-prefix budget gets the `"..."`-prefixed suffix of
the stripped line starting at `adjustedColumn - 40` with the marker
spliced at position `43`; otherwise (for a non-negative adjusted column)
the preview is the full stripped line with the marker spliced at
`adjustedColumn`. -/
theorem format_code_spec (line : List Char) (column0 diff : Nat) :
    ((max_prefix_len : Int) < (column0 : Int) - (diff : Int) →
      format_code line column0 diff =
        spliceAt 43 (ellipsisChars ++
          line.drop ((column0 : Int) - (diff : Int) - (max_prefix_len : Int)).toNat)) ∧
    (0 ≤ (column0 : Int) - (diff : Int) → (column0 : Int) - (diff : Int) ≤ (max_prefix_len : Int) →
      format_code line column0 diff = spliceAt ((column0 : Int) - (diff : Int)).toNat line) := by
  constructor
  · intro h
    simp only [format_code]
    rw [if_pos h, pyTake_nonneg _ _ (by decide), pyDrop_nonneg _ _ (by decide)]
    have h43 : ((max_prefix_len : Int) + 3).toNat = 43 := by decide
    rw [h43]
    rfl
  · intro h0 h40
    simp only [format_code]
    rw [if_neg (not_lt.mpr h40), pyTake_nonneg _ _ h0, pyDrop_nonneg _ _ h0]
    rfl

theorem format_code_spec_witness :
    format_code (List.replicate 45 'a') 41 0 =
      spliceAt 43 (ellipsisChars ++
        (List.replicate 45 'a').drop ((41 : Int) - (0 : Int) - (max_prefix_len : Int)).toNat) ∧
    format_code (List.replicate 45 'a') 40 0 =
      spliceAt ((40 : Int) - (0 : Int)).toNat (List.replicate 45 'a') :=
  ⟨(format_code_spec (List.replicate 45 'a') 41 0).1 (by decide),
   (format_code_spec (List.replicate 45 'a') 40 0).2 (by decide) (by decide)⟩

/-- C1: forward navigation anchors at the explicit point (else the first
selection range's `begin`), scans the broad-region union in ascending
`begin` order, and — whenever that scan finds a region — selects the
first region satisfying
`(point == begin AND emptySelection AND non-empty) OR point < begin`:
a satisfying region of minimal `begin`. -/
theorem goto_next_spec (sel0 w e marks : List Region) (wrap : Bool)
    (point? : Option Nat) (hne : w ++ e ≠ []) :
    (∀ p, point? = some p → anchorPoint (fixSel sel0) point? .next = p) ∧
    (point? = none →
      anchorPoint (fixSel sel0) point? .next = ((fixSel sel0).headD (Region.mk 0 0)).rbegin) ∧
    (sortRegions (w ++ e)).Pairwise (fun x y => x.rbegin ≤ y.rbegin) ∧
    (sortRegions (w ++ e)).Perm (w ++ e) ∧
    (goto_error sel0 w e marks wrap point? .next).isSome = true ∧
    (∀ r, (sortRegions (w ++ e)).find?
        (nextPred (anchorPoint (fixSel sel0) point? .next)
          (empty_selection (fixSel sel0))) = some r →
      goto_error sel0 w e marks wrap point? .next =
        some ⟨select_lint_region marks r, some r⟩ ∧
      r ∈ w ++ e ∧
      nextPred (anchorPoint (fixSel sel0) point? .next)
        (empty_selection (fixSel sel0)) r = true ∧
      ∀ r' ∈ w ++ e,
        nextPred (anchorPoint (fixSel sel0) point? .next)
          (empty_selection (fixSel sel0)) r' = true →
        r.rbegin ≤ r'.rbegin) := by
  refine ⟨fun p hp => by rw [hp]; rfl, fun hp => by rw [hp]; rfl, ?_, sortRegions_perm _,
    goto_error_isSome sel0 w e marks wrap point? .next hne, ?_⟩
  · exact (sortRegions_pairwise (w ++ e)).imp (fun h => regionLe_rbegin h)
  · intro r hf
    refine ⟨?_, ?_, List.find?_some hf, ?_⟩
    · simp only [goto_error, scanOrder, dirPred]
      rw [hf]
    · exact (sortRegions_perm (w ++ e)).mem_iff.mp (List.mem_of_find?_eq_some hf)
    · intro r' hmem hpr
      have hmem' : r' ∈ sortRegions (w ++ e) :=
        (sortRegions_perm (w ++ e)).mem_iff.mpr hmem
      rcases find?_pairwise_min (sortRegions_pairwise (w ++ e)) hf r' hmem' hpr with heq | hle
      · rw [heq]
      · exact regionLe_rbegin hle

theorem goto_next_spec_witness :
    goto_error [Region.mk 0 0] [Region.mk 4 6] [Region.mk 1 2] [] true none .next =
      some ⟨select_lint_region [] (Region.mk 1 2), some (Region.mk 1 2)⟩ ∧
    Region.mk 1 2 ∈ [Region.mk 4 6] ++ [Region.mk 1 2] ∧
    nextPred (anchorPoint (fixSel [Region.mk 0 0]) none .next)
      (empty_selection (fixSel [Region.mk 0 0])) (Region.mk 1 2) = true ∧
    ∀ r' ∈ [Region.mk 4 6] ++ [Region.mk 1 2],
      nextPred (anchorPoint (fixSel [Region.mk 0 0]) none .next)
        (empty_selection (fixSel [Region.mk 0 0])) r' = true →
      (Region.mk 1 2).rbegin ≤ r'.rbegin :=
  (goto_next_spec [Region.mk 0 0] [Region.mk 4 6] [Region.mk 1 2] [] true none
    (by decide)).2.2.2.2.2 (Region.mk 1 2) (by decide)

/-- C2: backward navigation anchors at the explicit point (else the last
selection range's `end`), scans the broad-region union in descending
`end` order (the reverse of the forward-sorted sequence; the two agree
because a `sublime.Selection` holds non-overlapping regions, which the
`end`-sortedness hypothesis captures), and — whenever that scan finds a
region — selects the first region satisfying
`(point == end AND emptySelection AND non-empty) OR point > end`:
a satisfying region of maximal `end`. -/
theorem goto_prev_spec (sel0 w e marks : List Region) (wrap : Bool)
    (point? : Option Nat) (hne : w ++ e ≠ [])
    (hEnd : (sortRegions (w ++ e)).Pairwise (fun x y => x.rend ≤ y.rend)) :
    (∀ p, point? = some p → anchorPoint (fixSel sel0) point? .prev = p) ∧
    (point? = none →
      anchorPoint (fixSel sel0) point? .prev =
        ((fixSel sel0).getLastD (Region.mk 0 0)).rend) ∧
    ((sortRegions (w ++ e)).reverse).Pairwise (fun x y => y.rend ≤ x.rend) ∧
    ((sortRegions (w ++ e)).reverse).Perm (w ++ e) ∧
    (goto_error sel0 w e marks wrap point? .prev).isSome = true ∧
    (∀ r, ((sortRegions (w ++ e)).reverse).find?
        (prevPred (anchorPoint (fixSel sel0) point? .prev)
          (empty_selection (fixSel sel0))) = some r →
      goto_error sel0 w e marks wrap point? .prev =
        some ⟨select_lint_region marks r, some r⟩ ∧
      r ∈ w ++ e ∧
      prevPred (anchorPoint (fixSel sel0) point? .prev)
        (empty_selection (fixSel sel0)) r = true ∧
      ∀ r' ∈ w ++ e,
        prevPred (anchorPoint (fixSel sel0) point? .prev)
          (empty_selection (fixSel sel0)) r' = true →
        r'.rend ≤ r.rend) := by
  refine ⟨fun p hp => by rw [hp]; rfl, fun hp => by rw [hp]; rfl,
    List.pairwise_reverse.mpr hEnd,
    (List.reverse_perm _).trans (sortRegions_perm _),
    goto_error_isSome sel0 w e marks wrap point? .prev hne, ?_⟩
  intro r hf
  refine ⟨?_, ?_, List.find?_some hf, ?_⟩
  · simp only [goto_error, scanOrder, dirPred]
    rw [hf]
  · exact (sortRegions_perm (w ++ e)).mem_iff.mp
      (List.mem_reverse.mp (List.mem_of_find?_eq_some hf))
  · intro r' hmem hpr
    have hmem' : r' ∈ (sortRegions (w ++ e)).reverse :=
      List.mem_reverse.mpr ((sortRegions_perm (w ++ e)).mem_iff.mpr hmem)
    rcases find?_pairwise_min (List.pairwise_reverse.mpr hEnd) hf r' hmem' hpr with heq | hle
    · rw [heq]
    · exact hle

theorem goto_prev_spec_witness :
    goto_error [Region.mk 9 9] [Region.mk 1 2] [Region.mk 4 6] [] true none .prev =
      some ⟨select_lint_region [] (Region.mk 4 6), some (Region.mk 4 6)⟩ ∧
    Region.mk 4 6 ∈ [Region.mk 1 2] ++ [Region.mk 4 6] ∧
    prevPred (anchorPoint (fixSel [Region.mk 9 9]) none .prev)
      (empty_selection (fixSel [Region.mk 9 9])) (Region.mk 4 6) = true ∧
    ∀ r' ∈ [Region.mk 1 2] ++ [Region.mk 4 6],
      prevPred (anchorPoint (fixSel [Region.mk 9 9]) none .prev)
        (empty_selection (fixSel [Region.mk 9 9])) r' = true →
      r'.rend ≤ (Region.mk 4 6).rend :=
  (goto_prev_spec [Region.mk 9 9] [Region.mk 1 2] [Region.mk 4 6] [] true none
    (by decide) (by decide)).2.2.2.2.2 (Region.mk 4 6) (by decide)

/-- C3: when the directional scan selects nothing — if several regions
exist, or the single region does not contain the anchor, wrapping (when
enabled) selects the first region for `Next` and the last for `Previous`,
and with wrap disabled the selection is restored and no region is
returned; otherwise (one region containing the anchor) the command fails
even with wrap enabled.  In particular, a single region containing the
anchor with a non-empty selection moves nothing and reports failure. -/
theorem goto_wrap_spec :
    (∀ (sel0 w e marks : List Region) (wrap : Bool) (point? : Option Nat) (dir : Direction),
      w ++ e ≠ [] →
      (∀ r ∈ w ++ e, dirPred dir (anchorPoint (fixSel sel0) point? dir)
        (empty_selection (fixSel sel0)) r = false) →
      ((1 < (sortRegions (w ++ e)).length ∨
          ((sortRegions (w ++ e)).headD (Region.mk 0 0)).containsPt
            (anchorPoint (fixSel sel0) point? dir) = false) →
        (wrap = true →
          goto_error sel0 w e marks wrap point? dir =
            some ⟨select_lint_region marks (wrapRegion dir (sortRegions (w ++ e))),
              some (wrapRegion dir (sortRegions (w ++ e)))⟩) ∧
        (wrap = false →
          goto_error sel0 w e marks wrap point? dir = some ⟨fixSel sel0, none⟩)) ∧
      ((sortRegions (w ++ e)).length ≤ 1 →
        ((sortRegions (w ++ e)).headD (Region.mk 0 0)).containsPt
          (anchorPoint (fixSel sel0) point? dir) = true →
        goto_error sel0 w e marks wrap point? dir = some ⟨fixSel sel0, none⟩)) ∧
    (∀ (sel0 : List Region) (r : Region) (marks : List Region) (wrap : Bool)
        (point? : Option Nat) (dir : Direction),
      empty_selection (fixSel sel0) = false →
      r.containsPt (anchorPoint (fixSel sel0) point? dir) = true →
      goto_error sel0 [r] [] marks wrap point? dir = some ⟨sel0, none⟩) := by
  have main : ∀ (sel0 w e marks : List Region) (wrap : Bool) (point? : Option Nat)
      (dir : Direction),
      w ++ e ≠ [] →
      (∀ r ∈ w ++ e, dirPred dir (anchorPoint (fixSel sel0) point? dir)
        (empty_selection (fixSel sel0)) r = false) →
      ((1 < (sortRegions (w ++ e)).length ∨
          ((sortRegions (w ++ e)).headD (Region.mk 0 0)).containsPt
            (anchorPoint (fixSel sel0) point? dir) = false) →
        (wrap = true →
          goto_error sel0 w e marks wrap point? dir =
            some ⟨select_lint_region marks (wrapRegion dir (sortRegions (w ++ e))),
              some (wrapRegion dir (sortRegions (w ++ e)))⟩) ∧
        (wrap = false →
          goto_error sel0 w e marks wrap point? dir = some ⟨fixSel sel0, none⟩)) ∧
      ((sortRegions (w ++ e)).length ≤ 1 →
        ((sortRegions (w ++ e)).headD (Region.mk 0 0)).containsPt
          (anchorPoint (fixSel sel0) point? dir) = true →
        goto_error sel0 w e marks wrap point? dir = some ⟨fixSel sel0, none⟩) := by
    intro sel0 w e marks wrap point? dir hne hnone
    have hf := scan_none_of_all_false sel0 w e point? dir hnone
    rcases hcons : sortRegions (w ++ e) with _ | ⟨r0, rest⟩
    · exact absurd hcons (sortRegions_ne_nil hne)
    · have hgoto : goto_error sel0 w e marks wrap point? dir =
          (if 1 < (r0 :: rest).length ∨
              r0.containsPt (anchorPoint (fixSel sel0) point? dir) = false then
            if wrap then
              some ⟨select_lint_region marks (wrapRegion dir (r0 :: rest)),
                some (wrapRegion dir (r0 :: rest))⟩
            else some ⟨fixSel sel0, none⟩
          else some ⟨fixSel sel0, none⟩) := by
        simp only [goto_error]
        rw [hf, hcons]
      constructor
      · intro hcond
        rw [List.headD_cons] at hcond
        constructor
        · intro hw
          subst hw
          rw [hgoto, if_pos hcond, if_pos rfl]
        · intro hw
          subst hw
          rw [hgoto, if_pos hcond]
          rfl
      · intro hlen hcont
        rw [List.headD_cons] at hcont
        have hneg : ¬ (1 < (r0 :: rest).length ∨
            r0.containsPt (anchorPoint (fixSel sel0) point? dir) = false) := by
          intro hor
          rcases hor with h | h
          · omega
          · rw [hcont] at h
            simp at h
        rw [hgoto, if_neg hneg]
  refine ⟨main, ?_⟩
  intro sel0 r marks wrap point? dir hemp hcont
  have hc : r.rbegin ≤ anchorPoint (fixSel sel0) point? dir ∧
      anchorPoint (fixSel sel0) point? dir ≤ r.rend := by
    simpa [Region.containsPt] using hcont
  have hnone : ∀ x ∈ [r] ++ [], dirPred dir (anchorPoint (fixSel sel0) point? dir)
      (empty_selection (fixSel sel0)) x = false := by
    intro x hx
    have hx2 : x = r := by simpa using hx
    subst hx2
    cases dir with
    | next =>
      simp only [dirPred, nextPred, hemp]
      simp only [Bool.and_false, Bool.false_and, Bool.false_or]
      simpa using hc.1
    | prev =>
      simp only [dirPred, prevPred, hemp]
      simp only [Bool.and_false, Bool.false_and, Bool.false_or]
      simpa using hc.2
  have h2 := (main sel0 [r] [] marks wrap point? dir (by simp) hnone).2 Nat.le.refl hcont
  rw [h2, fixSel_of_emptySel_false hemp]

theorem goto_wrap_spec_witness :
    ((true = true →
      goto_error [Region.mk 9 9] [Region.mk 0 2, Region.mk 4 6] [] [] true none .next =
        some ⟨select_lint_region []
            (wrapRegion .next (sortRegions ([Region.mk 0 2, Region.mk 4 6] ++ []))),
          some (wrapRegion .next (sortRegions ([Region.mk 0 2, Region.mk 4 6] ++ [])))⟩) ∧
     (true = false →
      goto_error [Region.mk 9 9] [Region.mk 0 2, Region.mk 4 6] [] [] true none .next =
        some ⟨fixSel [Region.mk 9 9], none⟩)) ∧
    goto_error [Region.mk 2 4] [Region.mk 0 5] [] [] true none .next =
      some ⟨[Region.mk 2 4], none⟩ :=
  ⟨(goto_wrap_spec.1 [Region.mk 9 9] [Region.mk 0 2, Region.mk 4 6] [] [] true none .next
      (by decide) (by decide)).1 (by decide),
   goto_wrap_spec.2 [Region.mk 2 4] (Region.mk 0 5) [] true none .next
      (by decide) (by decide)⟩

/-- C7: whenever `goto_error` returns no region (the "No … lint error"
failure path), the selection it leaves behind equals the selection it was
called with — failure touches no external state.  (Stated for the
non-degenerate selections of the spec's `SelectionState` model; the
zero-range case is the subject of C10.) -/
theorem goto_failure_restores (sel0 w e marks : List Region) (wrap : Bool)
    (point? : Option Nat) (dir : Direction) (res : GotoResult)
    (h0 : sel0 ≠ [])
    (h : goto_error sel0 w e marks wrap point? dir = some res)
    (hn : res.region_to_select = none) : res.sel = sel0 := by
  rw [goto_none_sel sel0 w e marks wrap point? dir res h hn]
  exact fixSel_of_ne_nil h0

theorem goto_failure_restores_witness :
    (GotoResult.mk [Region.mk 9 9] none).sel = [Region.mk 9 9] :=
  goto_failure_restores [Region.mk 9 9] [Region.mk 0 2] [] [] false none .next
    (GotoResult.mk [Region.mk 9 9] none) (by decide) (by decide) (by decide)

/-- C9: every region access in `goto_error` is in bounds when the broad
region union is non-empty; the union being empty makes the wrap step's
`regions[0]` raise (modelled by `none`); and the `error_command` gate
checks the error map, not the region set, so it admits exactly such a
state (non-empty error map, empty region set). -/
theorem goto_region_bounds :
    (∀ (sel0 w e marks : List Region) (wrap : Bool) (point? : Option Nat) (dir : Direction),
      w ++ e ≠ [] → (goto_error sel0 w e marks wrap point? dir).isSome = true) ∧
    (∀ (sel0 marks : List Region) (wrap : Bool) (point? : Option Nat) (dir : Direction),
      goto_error sel0 [] [] marks wrap point? dir = none) ∧
    error_command_guard [(0, [(1, "E")])] = true := by
  refine ⟨fun sel0 w e marks wrap point? dir hne =>
    goto_error_isSome sel0 w e marks wrap point? dir hne, ?_, rfl⟩
  intro sel0 marks wrap point? dir
  cases dir <;> rfl

theorem goto_region_bounds_witness :
    (goto_error [Region.mk 0 0] [Region.mk 1 2] [] [] true none .next).isSome = true :=
  goto_region_bounds.1 [Region.mk 0 0] [Region.mk 1 2] [] [] true none .next (by decide)

/-- C10: with a zero-range selection and no explicit point, `goto_error`
first installs the single empty range `(0, 0)`, so it behaves exactly as
if called with that selection: the anchor point is `0`, the
empty-selection tie-break is active, and a failing call restores the
selection to `[(0, 0)]` — not to the original zero-range state. -/
theorem goto_empty_selection_fixup :
    (∀ (w e marks : List Region) (wrap : Bool) (point? : Option Nat) (dir : Direction),
      goto_error [] w e marks wrap point? dir =
        goto_error [Region.mk 0 0] w e marks wrap point? dir) ∧
    (anchorPoint (fixSel []) none .next = 0 ∧ anchorPoint (fixSel []) none .prev = 0 ∧
      empty_selection (fixSel []) = true) ∧
    (∀ (w e marks : List Region) (wrap : Bool) (dir : Direction) (res : GotoResult),
      goto_error [] w e marks wrap none dir = some res →
      res.region_to_select = none → res.sel = [Region.mk 0 0]) ∧
    goto_error [] [Region.mk 0 5] [] [Region.mk 1 3] true none .next =
      some ⟨[Region.mk 1 3], some (Region.mk 0 5)⟩ := by
  refine ⟨fun w e marks wrap point? dir => rfl, ⟨rfl, rfl, rfl⟩, ?_, rfl⟩
  intro w e marks wrap dir res h hn
  exact goto_none_sel [] w e marks wrap none dir res h hn

theorem goto_empty_selection_fixup_witness :
    (GotoResult.mk [Region.mk 0 0] none).sel = [Region.mk 0 0] :=
  goto_empty_selection_fixup.2.2.1 [Region.mk 0 5] [] [] true .prev
    (GotoResult.mk [Region.mk 0 0] none) (by decide) (by decide)

/-- C8 counterexample: on the spec's own scenario — stripped line
`"x = y  # comment"` (16 characters), column 2, 4 leading characters
stripped, so adjusted column `-2` — the marker is NOT inserted at
position 0 of the preview. -/
theorem format_code_negative_cex :
    format_code ("x = y  # comment".toList) 2 4 ≠
      spliceAt 0 ("x = y  # comment".toList) := by decide

/-- C8 amended: for a negative adjusted column no truncation occurs, but
the marker is spliced at Python's negative slice index — position
`max 0 (length + adjustedColumn)`, counted from the end of the stripped
line — which is position 0 only when the column deficit reaches the
line's length. -/
theorem format_code_negative_spec (line : List Char) (column0 diff : Nat)
    (h : (column0 : Int) - (diff : Int) < 0) :
    format_code line column0 diff =
      spliceAt ((line.length : Int) + ((column0 : Int) - (diff : Int))).toNat line := by
  simp only [format_code]
  rw [if_neg (not_lt.mpr (by omega : (column0 : Int) - (diff : Int) ≤ (max_prefix_len : Int)))]
  rw [pyTake_neg _ _ h, pyDrop_neg _ _ h]
  rfl

theorem format_code_negative_spec_witness :
    format_code ("x = y  # comment".toList) 2 4 =
      spliceAt ((("x = y  # comment".toList).length : Int) +
        ((2 : Int) - (4 : Int))).toNat ("x = y  # comment".toList) :=
  format_code_negative_spec ("x = y  # comment".toList) 2 4 (by decide)

theorem pairwise_key_flatten {A B K : Type} (LL : List A) (f : A → List B) (key : B → K)
    (KL : K → K → Prop)
    (hblock : ∀ a ∈ LL, ((f a).map key).Pairwise KL)
    (hcross : LL.Pairwise (fun a1 a2 => ∀ x ∈ (f a1).map key, ∀ y ∈ (f a2).map key, KL x y)) :
    ((LL.map f).flatten.map key).Pairwise KL := by
  rw [List.map_flatten, List.map_map]
  apply List.pairwise_flatten.mpr
  constructor
  · intro bl hbl
    rcases List.mem_map.mp hbl with ⟨a, ha, rfl⟩
    exact hblock a ha
  · exact List.pairwise_map.mpr hcross

/-- C6: the quick-list rows come out in ascending order of the key
`(line, column, message)` — lines ascending (the error map is a dict, so
its line keys are distinct), and within a line diagnostics ascending by
`(column, message)` — and, being a pure function of its inputs, repeated
builds over the same inputs yield identical output. -/
theorem show_all_errors_sorted (errors : List (Nat × List (Nat × String)))
    (lineText : Nat → List Char)
    (hnd : (errors.map Prod.fst).Nodup) :
    ((show_all_errors errors lineText).map rowKey).Pairwise keyLe ∧
    show_all_errors errors lineText = show_all_errors errors lineText := by
  refine ⟨?_, rfl⟩
  have hperm : (errors.insertionSort lineLe).Perm errors := List.perm_insertionSort _ _
  have hnd2 : ((errors.insertionSort lineLe).map Prod.fst).Nodup :=
    ((hperm.map Prod.fst).nodup_iff).mpr hnd
  have hne2 : (errors.insertionSort lineLe).Pairwise (fun a b => a.1 ≠ b.1) :=
    List.pairwise_map.mp hnd2
  have hle2 : (errors.insertionSort lineLe).Pairwise lineLe :=
    List.sorted_insertionSort lineLe errors
  have hlt : (errors.insertionSort lineLe).Pairwise (fun a b => a.1 < b.1) := by
    refine (hle2.and hne2).imp ?_
    intro a b h
    obtain ⟨h1, h2⟩ := h
    unfold lineLe at h1
    omega
  simp only [show_all_errors]
  apply pairwise_key_flatten
  · intro entry hentry
    rw [List.map_map]
    apply List.pairwise_map.mpr
    have hs : (entry.2.insertionSort msgLe).Pairwise msgLe :=
      List.sorted_insertionSort msgLe entry.2
    refine hs.imp ?_
    intro m1 m2 hm
    show keyLe (entry.1, m1.1, m1.2) (entry.1, m2.1, m2.2)
    unfold keyLe
    unfold msgLe at hm
    exact Or.inr ⟨rfl, hm⟩
  · refine hlt.imp ?_
    intro e1 e2 h12 x hx y hy
    rcases List.mem_map.mp hx with ⟨bx, hbx, rfl⟩
    rcases List.mem_map.mp hbx with ⟨m1, hm1, rfl⟩
    rcases List.mem_map.mp hy with ⟨yb, hyb, rfl⟩
    rcases List.mem_map.mp hyb with ⟨m2, hm2, rfl⟩
    exact Or.inl h12

theorem show_all_errors_sorted_witness :
    ((show_all_errors [(4, [(10, "undefined name"), (2, "unused import")]), (1, [(0, "c")])]
        (fun _ => "    x = y  # comment\n".toList)).map rowKey).Pairwise keyLe ∧
    show_all_errors [(4, [(10, "undefined name"), (2, "unused import")]), (1, [(0, "c")])]
        (fun _ => "    x = y  # comment\n".toList) =
      show_all_errors [(4, [(10, "undefined name"), (2, "unused import")]), (1, [(0, "c")])]
        (fun _ => "    x = y  # comment\n".toList) :=
  show_all_errors_sorted [(4, [(10, "undefined name"), (2, "unused import")]), (1, [(0, "c")])]
    (fun _ => "    x = y  # comment\n".toList) (by decide)

end SublimeLinter
